import Mathlib

/-!
Shallow embedding of the nock HTTP-mocking engine core
(`lib/common.js`, `lib/intercept.js`, `lib/recorder.js`).

JavaScript request-options objects are modelled as a record of optional
fields; JS string/number truthiness (`undefined`, `""` and `0` are falsy)
is made explicit by the `jsOr*` helpers.  Registries (the `allInterceptors`
object) are association lists in key-insertion order, matching iteration
order over a JS object with string keys.  Object identity (`===`) on
interceptor records is modelled by a numeric `id` field.
-/

namespace Nock

/-- A parsed request-options object.  Absent JS fields are `none`;
`https` models the recorder's `_https_` flag (absent = `false`). -/
structure Options where
  proto : Option String := none
  port : Option Nat := none
  hostname : Option String := none
  host : Option String := none
  https : Bool := false
  deriving Repr, DecidableEq

/-- JS `x || d` on an optional string field: `undefined` and `""` are falsy. -/
def jsOrStr : Option String → String → String
  | some s, d => if s = "" then d else s
  | none, d => d

/-- JS `x || d` on an optional numeric field: `undefined` and `0` are falsy. -/
def jsOrNat : Option Nat → Nat → Nat
  | some p, d => if p = 0 then d else p
  | none, d => d

/-- JS truthiness of an optional string (`undefined` and `""` are falsy). -/
def jsTruthy : Option String → Bool
  | some s => s ≠ ""
  | none => false

/-- JS `s.split(':')[0]`: the prefix of `s` before the first colon. -/
def splitColonHead (s : String) : String :=
  ⟨s.data.takeWhile (fun c => c ≠ ':')⟩

/-- JS `s.indexOf(':') !== -1`. -/
def hasColon (s : String) : Bool :=
  s.data.contains ':'

/-- The guarded assignment
`if (options.host) { options.hostname = options.hostname || options.host.split(':')[0]; }`
shared by both normalizers: when `host` is truthy and `hostname` is falsy,
`hostname` becomes the part of `host` before the first colon (possibly
`""`); otherwise it is left alone. -/
def normalizedHostname (o : Options) : Option String :=
  match o.host with
  | some h => if h = "" then o.hostname else
      match o.hostname with
      | some hn => if hn = "" then some (splitColonHead h) else some hn
      | none => some (splitColonHead h)
  | none => o.hostname

/-- `normalizeRequestOptions` from `lib/common.js` (lines 7-16):
defaults `proto` to `"http"`, `port` to 80/443 by scheme, fills
`hostname` from `host.split(':')[0]` when `host` is truthy, and
recomposes `host` as `hostname + ':' + port` (falling back to
`"localhost"` when `hostname` is falsy). -/
def normalizeRequestOptions (o : Options) : Options :=
  let proto := jsOrStr o.proto "http"
  let port := jsOrNat o.port (if proto = "http" then 80 else 443)
  let hostname := normalizedHostname o
  let host := jsOrStr hostname "localhost" ++ ":" ++ toString port
  { o with proto := some proto, port := some port,
           hostname := hostname, host := some host }

/-- `normalizeForRequest` from `lib/intercept.js` (lines 126-135); its body
is textually identical to `normalizeRequestOptions`. -/
def normalizeForRequest (o : Options) : Options :=
  let proto := jsOrStr o.proto "http"
  let port := jsOrNat o.port (if proto = "http" then 80 else 443)
  let hostname := normalizedHostname o
  let host := jsOrStr hostname "localhost" ++ ":" ++ toString port
  { o with proto := some proto, port := some port,
           hostname := hostname, host := some host }

/-- The string stored in an optional field known to be present after
normalization (`options.proto`, `options.host`). -/
def fieldStr (x : Option String) : String := x.getD ""

/-- `scope.shouldPersist()`: the scope object, reduced to the persistence
flag the `remove` logic consults. -/
structure Scope where
  persist : Bool
  deriving Repr

/-- The scope options attached at registration
(`interceptor.__nock_scopeOptions`); `scopeFiltering` is the optional
user-supplied predicate over a base path. -/
structure ScopeOptions where
  scopeFiltering : Option (String → Bool) := none

/-- Per-interceptor options (`interceptor.options`). -/
structure InterceptorOptions where
  allowUnmocked : Bool := false
  deriving Repr

/-- One registered interceptor record.  `id` models JS object identity
(`===`); `key` is the interceptor's `_key` string (`"METHOD url"`);
`nockScope`, `nockScopeKey`, `nockScopeOptions` and `nockFilteredScope`
model the `__nock_*` properties set by `add` and `interceptorsFor`;
`matchIndependentOfBody` is the match predicate the request override
invokes on the (normalized) options. -/
structure Interceptor where
  id : Nat
  counter : Nat := 1
  key : String := ""
  nockScope : Scope := ⟨false⟩
  nockScopeKey : String := ""
  nockScopeOptions : ScopeOptions := {}
  nockFilteredScope : Option String := none
  options : InterceptorOptions := {}
  matchIndependentOfBody : Options → Bool := fun _ => false

/-- `allInterceptors`: a JS object mapping canonical endpoint keys to
interceptor lists, modelled as an association list in key-insertion
order (JS string-keyed objects iterate in insertion order). -/
abbrev Registry := List (String × List Interceptor)

/-- JS `allInterceptors[key]` (`undefined` when absent). -/
def assocLookup : Registry → String → Option (List Interceptor)
  | [], _ => none
  | (k, g) :: rest, key => if k = key then some g else assocLookup rest key

/-- `add` from `lib/intercept.js` (lines 83-92): create the key's list if
absent, stamp the scope bookkeeping fields onto the interceptor and push
it at the end of the list. -/
def add (reg : Registry) (key : String) (i : Interceptor) (scope : Scope)
    (scopeOptions : ScopeOptions) : Registry :=
  let stamped := { i with nockScope := scope, nockScopeKey := key,
                          nockScopeOptions := scopeOptions }
  match assocLookup reg key with
  | some _ =>
      reg.map (fun kg => if kg.1 = key then (kg.1, kg.2 ++ [stamped]) else kg)
  | none => reg ++ [(key, [stamped])]

/-- `removeAll` from `lib/intercept.js` (lines 122-124). -/
def removeAll (_ : Registry) : Registry := []

/-- Does this interceptor's `scopeFiltering` predicate accept `basePath`?
(`scopeFiltering && scopeFiltering(basePath)` in `interceptorsFor`.) -/
def filterTest (i : Interceptor) (basePath : String) : Bool :=
  match i.nockScopeOptions.scopeFiltering with
  | some f => f basePath
  | none => false

/-- The in-place flagging `scope.__nock_filteredScope = scope.__nock_scopeKey`
performed on a scope-filter match. -/
def setFiltered (i : Interceptor) : Interceptor :=
  { i with nockFilteredScope := some i.nockScopeKey }

/-- The inner `_.each` of `interceptorsFor` over one endpoint group: find
the first interceptor whose `scopeFiltering` accepts `basePath`, flag it
in place, and report the (mutated) group; `none` when no filter in the
group matches. -/
def flagFirstFilter : List Interceptor → String → Option (List Interceptor)
  | [], _ => none
  | i :: rest, bp =>
      if filterTest i bp then some (setFiltered i :: rest)
      else (flagFirstFilter rest bp).map (i :: ·)

/-- The outer `_.each` of `interceptorsFor`: scan endpoint groups in
insertion order, stopping at the first group containing a filter match
(`return !matchingInterceptor`). -/
def findFilteredGroup : Registry → String → Option (List Interceptor)
  | [], _ => none
  | (_, g) :: rest, bp =>
      match flagFirstFilter g bp with
      | some g2 => some g2
      | none => findFilteredGroup rest bp

/-- The base path `options.proto + '://' + options.host` computed by
`interceptorsFor` from the normalized options. -/
def basePath (o : Options) : String :=
  fieldStr o.proto ++ "://" ++ fieldStr o.host

/-- The body of `interceptorsFor` (lib/intercept.js lines 137-171) after
the mutating `normalizeForRequest(options)` call: `o` is the normalized
options object. -/
def interceptorsForNormed (reg : Registry) (o : Options) : List Interceptor :=
  match findFilteredGroup reg (basePath o) with
  | some g => g
  | none => (assocLookup reg (basePath o)).getD []

/-- `interceptorsFor` from `lib/intercept.js` (lines 137-171): normalize
the options, then prefer the scope-filter override over the exact
canonical-key lookup (`allInterceptors[basePath] || []`). -/
def interceptorsFor (reg : Registry) (o : Options) : List Interceptor :=
  interceptorsForNormed reg (normalizeForRequest o)

/-- JS `key.split(' ')[1]` (`_key` is `"METHOD url"`): the characters
after the first space, up to the next space. -/
def splitSpaceSecond (s : String) : String :=
  ⟨((s.data.dropWhile (fun c => c ≠ ' ')).drop 1).takeWhile
    (fun c => c ≠ ' ')⟩

/-- The characters before the first `//`. -/
def upToDoubleSlash : List Char → List Char
  | [] => []
  | '/' :: '/' :: _ => []
  | c :: rest => c :: upToDoubleSlash rest

/-- The characters after the first `//`. -/
def afterDoubleSlash : List Char → List Char
  | [] => []
  | '/' :: '/' :: rest => rest
  | _ :: rest => afterDoubleSlash rest

/-- `url.parse(u).protocol` for a `scheme://host/path` URL: the part up to
and including the colon before `//`. -/
def urlProtocol (u : String) : String :=
  ⟨upToDoubleSlash u.data⟩

/-- `url.parse(u).host` for a `scheme://host/path` URL: the authority,
i.e. what stands between `//` and the next `/`. -/
def urlHost (u : String) : String :=
  ⟨(afterDoubleSlash u.data).takeWhile (fun c => c ≠ '/')⟩

/-- The host key `u.protocol + '//' + u.host` recomputed by `remove` from
the interceptor's `_key`. -/
def hostKeyOf (key : String) : String :=
  let u := splitSpaceSecond key
  urlProtocol u ++ "//" ++ urlHost u

/-- The decrement `interceptor.counter -= 1` on the shared interceptor
object, reflected at every occurrence of that object in the registry. -/
def decrementById (reg : Registry) (id : Nat) : Registry :=
  reg.map (fun kg =>
    (kg.1, kg.2.map (fun i =>
      if i.id = id then { i with counter := i.counter - 1 } else i)))

/-- The splice loop of `remove`: drop the first list element that is the
given object (`thisInterceptor === interceptor`). -/
def removeFirstById : List Interceptor → Nat → List Interceptor
  | [], _ => []
  | i :: rest, id => if i.id = id then rest else i :: removeFirstById rest id

/-- The effect, on the key-indexed registry, of mutating the list stored
under `key` in place: every entry filed under `key` gets the new list. -/
def assocUpdate (reg : Registry) (key : String)
    (f : List Interceptor → List Interceptor) : Registry :=
  reg.map (fun kg => if kg.1 = key then (kg.1, f kg.2) else kg)

/-- `remove` from `lib/intercept.js` (lines 94-120): a no-op for persistent
scopes; a counter decrement while `counter > 1`; otherwise splice the
interceptor out of the list under the host key recomputed from `_key`. -/
def remove (reg : Registry) (i : Interceptor) : Registry :=
  if i.nockScope.persist then reg
  else if 1 < i.counter then decrementById reg i.id
  else
    let hostKey := hostKeyOf i.key
    match assocLookup reg hostKey with
    | some _ => assocUpdate reg hostKey (fun g => removeFirstById g i.id)
    | none => reg

/-- The net-connect policy variable `allowNetConnect`: `none` models the
literal `false` set by `disableNetConnect`, `some p` models a RegExp via
its `test` predicate. -/
abbrev NetConnectPolicy := Option (String → Bool)

/-- `disableNetConnect` (lib/intercept.js lines 71-73): `allowNetConnect = false`. -/
def disableNetConnect : NetConnectPolicy := none

/-- `enableNetConnect()` with no (or an unusable) argument
(lib/intercept.js lines 48-56): `allowNetConnect = /.*/`, the regular
expression whose `test` accepts every string. -/
def enableNetConnectAll : NetConnectPolicy := some (fun _ => true)

/-- `enableNetConnect(matcher)` with a RegExp-like argument: keep its
`test` predicate. -/
def enableNetConnectMatching (test : String → Bool) : NetConnectPolicy :=
  some test

/-- `isEnabledForNetConnect` (lib/intercept.js lines 58-62): normalize the
options, then `allowNetConnect && allowNetConnect.test(options.host)`. -/
def isEnabledForNetConnect (policy : NetConnectPolicy) (o : Options) : Bool :=
  let o2 := normalizeForRequest o
  match policy with
  | some test => test (fieldStr o2.host)
  | none => false

/-- The message built by the `NetConnectNotAllowedError` constructor
(lib/intercept.js lines 26-29). -/
def netConnectNotAllowedMessage (host : String) : String :=
  "Nock: Not allow net connect for \"" ++ host ++ "\""

/-- The process-wide engine state read by the overridden `module.request`:
the registry, the net-connect policy, and whether `NOCK_OFF === 'true'`
(`isOff`). -/
structure EngineState where
  registry : Registry
  policy : NetConnectPolicy
  nockOff : Bool

/-- The observable outcome of one call to the overridden `module.request`. -/
inductive RequestOutcome where
  /-- `oldRequest.apply(module, arguments)`: the real, un-overridden
  network request function runs. -/
  | realRequest
  /-- An `OverridenClientRequest` is built and handed to `RequestOverrider`
  for simulation. -/
  | simulated
  /-- `throw new NetConnectNotAllowedError(options.host)`. -/
  | netConnectError (host : String)
  deriving Repr, DecidableEq

/-- The overridden `module.request` from `activate`
(lib/intercept.js lines 205-243), as the function from engine state,
module protocol and raw options to its outcome.  `options.proto = proto`
runs first; `interceptorsFor` then normalizes the shared options object
in place, so the match predicates, `isEnabledForNetConnect` and the error
host all see the normalized options. -/
def moduleRequest (st : EngineState) (proto : String) (o0 : Options) :
    RequestOutcome :=
  let o := normalizeForRequest { o0 with proto := some proto }
  let interceptors := interceptorsForNormed st.registry o
  if !st.nockOff && !interceptors.isEmpty then
    let allowUnmocked := interceptors.any (fun i => i.options.allowUnmocked)
    let anyMatch := interceptors.any (fun i => i.matchIndependentOfBody o)
    if !anyMatch && allowUnmocked then .realRequest
    else .simulated
  else
    if st.nockOff || isEnabledForNetConnect st.policy o then .realRequest
    else .netConnectError (fieldStr o.host)

/-- `getScope` from `lib/recorder.js` (lines 12-36): normalize the options,
start the scope with `https://` or `http://` by the `_https_` flag, append
`options.host`, and append `':' + options.port` only when `options.host`
has no colon and `options.port` is a truthy non-default port. -/
def getScope (o0 : Options) : String :=
  let o := normalizeRequestOptions o0
  let scheme := if o.https then "https://" else "http://"
  let host := fieldStr o.host
  let portPiece :=
    if !hasColon host
        && jsOrNat o.port 0 ≠ 0
        && (match o.port with
            | some p =>
                if o.https then toString p ≠ "443" else toString p ≠ "80"
            | none => false) then
      ":" ++ toString (jsOrNat o.port 0)
    else ""
  scheme ++ host ++ portPiece

/-- A byte buffer (`Buffer`), as its list of byte values. -/
abbrev Buffer := List Nat

/-- Modelled from the spec: `common.mergeChunks` is not under `src/`; the
spec says each payload is "merged from its chunks" — the buffered chunks
concatenated in order. -/
def mergeChunks (chunks : List Buffer) : Buffer :=
  chunks.flatten

/-- The hex digit for a value below 16, as in `Buffer.toString('hex')`. -/
def hexDigit (n : Nat) : Char :=
  if n < 10 then Char.ofNat (48 + n) else Char.ofNat (87 + n)

/-- One byte rendered as two lowercase hex digits. -/
def byteToHex (b : Nat) : String :=
  String.mk [hexDigit (b / 16 % 16), hexDigit (b % 16)]

/-- `buffer.toString('hex')`: the bytes rendered as a lowercase hex string. -/
def bufferToHex (bs : Buffer) : String :=
  String.join (bs.map byteToHex)

/-- The classification result of `getBodyFromChunks`: a hex string for a
binary buffer, a parsed structure for JSON text, or the raw text.
`α` is the type of parsed JSON structures. -/
inductive BodyValue (α : Type) where
  | hex (s : String)
  | json (v : α)
  | text (s : String)
  deriving Repr, DecidableEq

/-- `getBodyFromChunks` from `lib/recorder.js` (lines 44-64).  The binary
signature test `common.isBinaryBuffer` is not under `src/` and
`JSON.parse` and `buffer.toString('utf8')` are platform builtins, so the
three are parameters: `isBinaryBuffer` decides the binary signature,
`utf8` decodes a buffer to text, and `jsonParse` returns `some` parsed
structure or `none` where `JSON.parse` would throw (the `catch` branch
returns the text itself). -/
def getBodyFromChunks {α : Type} (isBinaryBuffer : Buffer → Bool)
    (utf8 : Buffer → String) (jsonParse : String → Option α)
    (chunks : List Buffer) : BodyValue α :=
  let mergedBuffer := mergeChunks chunks
  if isBinaryBuffer mergedBuffer then
    .hex (bufferToHex mergedBuffer)
  else
    let maybeStringifiedJson := utf8 mergedBuffer
    match jsonParse maybeStringifiedJson with
    | some v => .json v
    | none => .text maybeStringifiedJson

/-- The recorder's module state: the `recordingInProgress` flag (the
`outputs` list and the transport-hook overriding are outside these
claims). -/
structure RecorderState where
  recordingInProgress : Bool
  deriving Repr, DecidableEq

/-- `record` from `lib/recorder.js` (lines 119-130 of the session logic):
throws `'Nock recording already in progress'` when a session is active,
otherwise marks recording as in progress (the request overriding that
follows belongs to the transport hook). -/
def record (st : RecorderState) : Except String RecorderState :=
  if st.recordingInProgress then
    .error "Nock recording already in progress"
  else
    .ok { st with recordingInProgress := true }

/-- `restore` from `lib/recorder.js` (lines 210-216): restores the
overridden request functions (transport hook) and clears
`recordingInProgress`. -/
def restore (st : RecorderState) : RecorderState :=
  { st with recordingInProgress := false }

/-! ## Helper lemmas -/

theorem jsOrStr_ne_empty (x : Option String) (d : String) (hd : d ≠ "") :
    jsOrStr x d ≠ "" := by
  cases x with
  | none => simpa [jsOrStr] using hd
  | some s =>
      by_cases hs : s = "" <;> simp [jsOrStr, hs, hd]

theorem jsOrStr_some_of_ne (s d : String) (hs : s ≠ "") :
    jsOrStr (some s) d = s := by
  simp [jsOrStr, hs]

theorem jsOrNat_ne_zero (x : Option Nat) (d : Nat) (hd : d ≠ 0) :
    jsOrNat x d ≠ 0 := by
  cases x with
  | none => simpa [jsOrNat] using hd
  | some p =>
      by_cases hp : p = 0 <;> simp [jsOrNat, hp, hd]

theorem jsOrNat_some_of_ne (p d : Nat) (hp : p ≠ 0) :
    jsOrNat (some p) d = p := by
  simp [jsOrNat, hp]

theorem takeWhile_append_stop (p : Char → Bool) (l1 l2 : List Char) (c : Char)
    (h1 : ∀ x ∈ l1, p x = true) (hc : p c = false) :
    (l1 ++ c :: l2).takeWhile p = l1 := by
  induction l1 with
  | nil => simp [List.takeWhile, hc]
  | cons a as ih =>
      have ha : p a = true := h1 a (List.mem_cons_self a as)
      simp only [List.cons_append, List.takeWhile_cons, ha, if_true]
      rw [ih (fun x hx => h1 x (List.mem_cons_of_mem a hx))]

theorem splitColonHead_append (a b : String)
    (ha : ∀ x ∈ a.data, x ≠ ':') :
    splitColonHead (a ++ ":" ++ b) = a := by
  have hdata : (a ++ ":" ++ b).data = a.data ++ ':' :: b.data := by
    simp [String.data_append]
  simp only [splitColonHead, hdata]
  rw [takeWhile_append_stop _ _ _ _ (by simpa using ha) (by simp)]

theorem append_colon_ne_empty (a b : String) : a ++ ":" ++ b ≠ "" := by
  intro h
  have := congrArg String.data h
  simp [String.data_append] at this

theorem hasColon_append (a b : String) : hasColon (a ++ ":" ++ b) = true := by
  simp [hasColon, String.data_append]

theorem normalizeForRequest_eq (o : Options) :
    normalizeForRequest o = normalizeRequestOptions o := rfl

theorem normalize_proto (o : Options) :
    (normalizeRequestOptions o).proto = some (jsOrStr o.proto "http") := rfl

theorem normalize_port (o : Options) :
    (normalizeRequestOptions o).port =
      some (jsOrNat o.port (if jsOrStr o.proto "http" = "http" then 80 else 443)) := rfl

theorem normalize_hostname (o : Options) :
    (normalizeRequestOptions o).hostname = normalizedHostname o := rfl

theorem normalize_host (o : Options) :
    (normalizeRequestOptions o).host =
      some (jsOrStr (normalizedHostname o) "localhost" ++ ":" ++
        toString (jsOrNat o.port (if jsOrStr o.proto "http" = "http" then 80 else 443))) := rfl

theorem normalize_https (o : Options) :
    (normalizeRequestOptions o).https = o.https := rfl

theorem localhost_no_colon : ∀ x ∈ "localhost".data, x ≠ ':' := by decide

theorem normalizedHostname_of_truthy (o : Options) (hn : String)
    (h1 : o.hostname = some hn) (h2 : hn ≠ "") :
    normalizedHostname o = some hn := by
  obtain ⟨xp, xq, xhn, xho, xb⟩ := o
  simp only at h1
  subst h1
  cases xho with
  | none => simp [normalizedHostname]
  | some h => by_cases hh : h = "" <;> simp [normalizedHostname, hh, h2]

theorem normalizedHostname_eq_of_host (x : Options) (s : String)
    (hhost : x.host = some s) (hne : s ≠ "") :
    normalizedHostname x =
      match x.hostname with
      | some hn => if hn = "" then some (splitColonHead s) else some hn
      | none => some (splitColonHead s) := by
  obtain ⟨xp, xq, xhn, xho, xb⟩ := x
  simp only at hhost
  subst hhost
  simp [normalizedHostname, hne]

theorem normalizedHostname_norm (o : Options) :
    normalizedHostname (normalizeRequestOptions o) =
      some (jsOrStr (normalizedHostname o) "localhost") := by
  rw [normalizedHostname_eq_of_host _ _ (normalize_host o)
    (append_colon_ne_empty _ _)]
  rw [normalize_hostname]
  rcases hH : normalizedHostname o with _ | hn
  · simp only [jsOrStr]
    rw [splitColonHead_append _ _ localhost_no_colon]
  · by_cases hhn : hn = ""
    · subst hhn
      simp only [jsOrStr, if_pos rfl, if_true]
      rw [splitColonHead_append _ _ localhost_no_colon]
    · simp [jsOrStr, hhn]

theorem normalizeRequestOptions_fixed (o : Options) (P : String) (Q : Nat)
    (hn : String)
    (hP : o.proto = some P) (hPne : P ≠ "")
    (hQ : o.port = some Q) (hQne : Q ≠ 0)
    (hhn : o.hostname = some hn) (hhnne : hn ≠ "")
    (hhost : o.host = some (hn ++ ":" ++ toString Q)) :
    normalizeRequestOptions o = o := by
  obtain ⟨xp, xq, xhn, xho, xb⟩ := o
  simp only at hP hQ hhn hhost
  subst hP; subst hQ; subst hhn; subst hhost
  have hH : normalizedHostname
      ⟨some P, some Q, some hn, some (hn ++ ":" ++ toString Q), xb⟩ = some hn := by
    simp [normalizedHostname, append_colon_ne_empty hn (toString Q), hhnne]
  simp [normalizeRequestOptions, hH, jsOrStr_some_of_ne _ _ hPne,
    jsOrNat_some_of_ne _ _ hQne, jsOrStr_some_of_ne _ _ hhnne]

theorem normalize_port_pos (o : Options) :
    jsOrNat o.port (if jsOrStr o.proto "http" = "http" then 80 else 443) ≠ 0 := by
  apply jsOrNat_ne_zero
  by_cases hp : jsOrStr o.proto "http" = "http" <;> simp [hp]

theorem normalize_norm_proto (o : Options) :
    (normalizeRequestOptions (normalizeRequestOptions o)).proto =
      (normalizeRequestOptions o).proto := by
  rw [normalize_proto (normalizeRequestOptions o), normalize_proto o]
  rw [jsOrStr_some_of_ne _ _ (jsOrStr_ne_empty _ _ (by simp))]

theorem normalize_norm_port (o : Options) :
    (normalizeRequestOptions (normalizeRequestOptions o)).port =
      (normalizeRequestOptions o).port := by
  rw [normalize_port (normalizeRequestOptions o), normalize_port o]
  rw [normalize_proto o]
  rw [jsOrStr_some_of_ne _ _ (jsOrStr_ne_empty _ _ (by simp))]
  rw [jsOrNat_some_of_ne _ _ (normalize_port_pos o)]

theorem normalize_norm_hostname (o : Options) :
    (normalizeRequestOptions (normalizeRequestOptions o)).hostname =
      some (jsOrStr (normalizedHostname o) "localhost") := by
  rw [normalize_hostname, normalizedHostname_norm]

theorem normalize_norm_host (o : Options) :
    (normalizeRequestOptions (normalizeRequestOptions o)).host =
      (normalizeRequestOptions o).host := by
  rw [normalize_host (normalizeRequestOptions o), normalize_host o]
  rw [normalizedHostname_norm]
  rw [jsOrStr_some_of_ne _ _ (jsOrStr_ne_empty _ _ (by simp))]
  rw [normalize_port o, normalize_proto o]
  rw [jsOrStr_some_of_ne _ _ (jsOrStr_ne_empty _ _ (by simp))]
  rw [jsOrNat_some_of_ne _ _ (normalize_port_pos o)]

theorem normalize_norm_fixed (o : Options) :
    normalizeRequestOptions (normalizeRequestOptions
      (normalizeRequestOptions o)) =
    normalizeRequestOptions (normalizeRequestOptions o) := by
  apply normalizeRequestOptions_fixed _
    (jsOrStr o.proto "http")
    (jsOrNat o.port (if jsOrStr o.proto "http" = "http" then 80 else 443))
    (jsOrStr (normalizedHostname o) "localhost")
  · rw [normalize_norm_proto, normalize_proto]
  · exact jsOrStr_ne_empty _ _ (by simp)
  · rw [normalize_norm_port, normalize_port]
  · exact normalize_port_pos o
  · exact normalize_norm_hostname o
  · exact jsOrStr_ne_empty _ _ (by simp)
  · rw [normalize_norm_host, normalize_host]

theorem normalize_idem_of_truthy (o : Options) (hn : String)
    (h1 : o.hostname = some hn) (h2 : hn ≠ "") :
    normalizeRequestOptions (normalizeRequestOptions o) =
      normalizeRequestOptions o := by
  apply normalizeRequestOptions_fixed _
    (jsOrStr o.proto "http")
    (jsOrNat o.port (if jsOrStr o.proto "http" = "http" then 80 else 443))
    hn
  · exact normalize_proto o
  · exact jsOrStr_ne_empty _ _ (by simp)
  · exact normalize_port o
  · exact normalize_port_pos o
  · rw [normalize_hostname, normalizedHostname_of_truthy o hn h1 h2]
  · exact h2
  · rw [normalize_host, normalizedHostname_of_truthy o hn h1 h2,
      jsOrStr_some_of_ne _ _ h2]

theorem flagFirstFilter_of_no_match (g : List Interceptor) (bp : String)
    (h : ∀ i ∈ g, filterTest i bp = false) :
    flagFirstFilter g bp = none := by
  induction g with
  | nil => rfl
  | cons i rest ih =>
      have hi := h i (List.mem_cons_self i rest)
      simp only [flagFirstFilter, hi, Bool.false_eq_true, if_false]
      rw [ih (fun j hj => h j (List.mem_cons_of_mem i hj))]
      rfl

theorem flagFirstFilter_cons (j : Interceptor) (l : List Interceptor)
    (bp : String) :
    flagFirstFilter (j :: l) bp =
      if filterTest j bp then some (setFiltered j :: l)
      else (flagFirstFilter l bp).map (j :: ·) := rfl

theorem flagFirstFilter_found (g1 : List Interceptor) (i : Interceptor)
    (g2 : List Interceptor) (bp : String)
    (h1 : ∀ j ∈ g1, filterTest j bp = false)
    (hi : filterTest i bp = true) :
    flagFirstFilter (g1 ++ i :: g2) bp = some (g1 ++ setFiltered i :: g2) := by
  induction g1 with
  | nil => simp [flagFirstFilter_cons, hi]
  | cons j rest ih =>
      have hj := h1 j (List.mem_cons_self j rest)
      rw [List.cons_append, flagFirstFilter_cons, if_neg (by simp [hj]),
        ih (fun x hx => h1 x (List.mem_cons_of_mem j hx))]
      rfl

theorem findFilteredGroup_of_no_match (reg : Registry) (bp : String)
    (h : ∀ p ∈ reg, ∀ i ∈ p.2, filterTest i bp = false) :
    findFilteredGroup reg bp = none := by
  induction reg with
  | nil => rfl
  | cons p rest ih =>
      obtain ⟨k, g⟩ := p
      simp only [findFilteredGroup]
      rw [flagFirstFilter_of_no_match g bp
        (h (k, g) (List.mem_cons_self _ _))]
      exact ih (fun q hq => h q (List.mem_cons_of_mem _ hq))

theorem findFilteredGroup_found (pre : Registry) (k : String)
    (g1 : List Interceptor) (i : Interceptor) (g2 : List Interceptor)
    (post : Registry) (bp : String)
    (hpre : ∀ p ∈ pre, ∀ j ∈ p.2, filterTest j bp = false)
    (h1 : ∀ j ∈ g1, filterTest j bp = false)
    (hi : filterTest i bp = true) :
    findFilteredGroup (pre ++ (k, g1 ++ i :: g2) :: post) bp =
      some (g1 ++ setFiltered i :: g2) := by
  induction pre with
  | nil =>
      simp only [List.nil_append, findFilteredGroup]
      rw [flagFirstFilter_found g1 i g2 bp h1 hi]
  | cons p rest ih =>
      obtain ⟨k2, g⟩ := p
      simp only [List.cons_append, findFilteredGroup]
      rw [flagFirstFilter_of_no_match g bp
        (hpre (k2, g) (List.mem_cons_self _ _))]
      exact ih (fun q hq => hpre q (List.mem_cons_of_mem _ hq))

theorem assocLookup_cons (k2 : String) (g2 : List Interceptor)
    (rest : Registry) (key : String) :
    assocLookup ((k2, g2) :: rest) key =
      if k2 = key then some g2 else assocLookup rest key := rfl

theorem assocUpdate_cons (k2 : String) (g2 : List Interceptor)
    (rest : Registry) (key : String)
    (f : List Interceptor → List Interceptor) :
    assocUpdate ((k2, g2) :: rest) key f =
      (if k2 = key then (k2, f g2) else (k2, g2)) :: assocUpdate rest key f := rfl

theorem assocLookup_assocUpdate (reg : Registry) (key : String)
    (f : List Interceptor → List Interceptor) (g : List Interceptor)
    (h : assocLookup reg key = some g) :
    assocLookup (assocUpdate reg key f) key = some (f g) := by
  induction reg with
  | nil => simp [assocLookup] at h
  | cons p rest ih =>
      obtain ⟨k, g2⟩ := p
      rw [assocUpdate_cons]
      by_cases hk : k = key
      · rw [assocLookup_cons, if_pos hk] at h
        cases h
        rw [if_pos hk, assocLookup_cons, if_pos hk]
      · rw [assocLookup_cons, if_neg hk] at h
        rw [if_neg hk, assocLookup_cons, if_neg hk]
        exact ih h

theorem removeFirstById_of_unique (g : List Interceptor) (id : Nat)
    (h : g.countP (fun j => j.id = id) ≤ 1) :
    ∀ j ∈ removeFirstById g id, j.id ≠ id := by
  induction g with
  | nil => intro j hj; simp [removeFirstById] at hj
  | cons i rest ih =>
      by_cases hid : i.id = id
      · simp only [removeFirstById, if_pos hid]
        intro j hj
        rw [List.countP_cons] at h
        simp [hid] at h
        intro hcontra
        exact h j hj hcontra
      · simp only [removeFirstById, if_neg hid]
        intro j hj
        rcases List.mem_cons.mp hj with h1 | h2
        · subst h1; exact hid
        · apply ih _ j h2
          rw [List.countP_cons] at h
          simp [hid] at h
          exact h

theorem remove_iterate_of_persist (reg : Registry) (i : Interceptor)
    (h : i.nockScope.persist = true) (n : Nat) :
    (fun r => remove r i)^[n] reg = reg := by
  induction n with
  | zero => rfl
  | succ m ih =>
      rw [Function.iterate_succ_apply, remove, if_pos h]
      exact ih

/-! ## Claim theorems -/

/-- C5: whenever the kill-switch `NOCK_OFF === 'true'` is set, the
overridden `module.request` forwards every request to the real network
function, for every registry, every net-connect policy (including the
disabled one) and every request, so no interceptor matching decides the
outcome. -/
theorem nock_off_transparent (st : EngineState) (proto : String)
    (o : Options) (h : st.nockOff = true) :
    moduleRequest st proto o = .realRequest := by
  simp [moduleRequest, h]

/-- Witness for C5: with the kill-switch set, a request to a host whose
endpoint has a registered interceptor and net-connect disabled is still
forwarded. -/
theorem nock_off_transparent_witness :
    moduleRequest
      ⟨[("http://example.com:80", [{ id := 0 }])], disableNetConnect, true⟩
      "http" { host := some "example.com" } = .realRequest :=
  nock_off_transparent _ _ _ rfl

/-- C9: `record` raises exactly when a recording session is in progress;
a successful call marks recording as in progress, so a second `record`
before `restore` raises; `restore` clears the flag and a subsequent
`record` succeeds. -/
theorem record_session_lifecycle (st : RecorderState) :
    ((∃ e, record st = .error e) ↔ st.recordingInProgress = true) ∧
    (∀ st2, record st = .ok st2 →
      st2.recordingInProgress = true ∧ ∃ e, record st2 = .error e) ∧
    (restore st).recordingInProgress = false ∧
    (∃ st2, record (restore st) = .ok st2) := by
  obtain ⟨b⟩ := st
  cases b <;> simp [record, restore]

/-- Witness for C9: starting a session while one is active raises, and
after `restore` a new session starts. -/
theorem record_session_lifecycle_witness :
    (∃ e, record ⟨true⟩ = .error e) ∧
    (∃ st2, record (restore ⟨true⟩) = .ok st2) :=
  ⟨(record_session_lifecycle ⟨true⟩).1.mpr rfl,
   (record_session_lifecycle ⟨true⟩).2.2.2⟩

/-- C7: `getBodyFromChunks` classifies the merged payload in order —
binary signature first (hex string), then JSON parse (structured value),
else the raw decoded text — and a JSON parse failure is recovered locally
into the text result, never surfaced (the function is total). -/
theorem getBodyFromChunks_classification {α : Type}
    (isBinaryBuffer : Buffer → Bool) (utf8 : Buffer → String)
    (jsonParse : String → Option α) (chunks : List Buffer) :
    (isBinaryBuffer (mergeChunks chunks) = true →
      getBodyFromChunks isBinaryBuffer utf8 jsonParse chunks =
        .hex (bufferToHex (mergeChunks chunks))) ∧
    (isBinaryBuffer (mergeChunks chunks) = false →
      ∀ v, jsonParse (utf8 (mergeChunks chunks)) = some v →
        getBodyFromChunks isBinaryBuffer utf8 jsonParse chunks = .json v) ∧
    (isBinaryBuffer (mergeChunks chunks) = false →
      jsonParse (utf8 (mergeChunks chunks)) = none →
        getBodyFromChunks isBinaryBuffer utf8 jsonParse chunks =
          .text (utf8 (mergeChunks chunks))) := by
  refine ⟨fun hb => ?_, fun hb v hv => ?_, fun hb hv => ?_⟩
  · simp [getBodyFromChunks, hb]
  · simp [getBodyFromChunks, hb, hv]
  · simp [getBodyFromChunks, hb, hv]

/-- Witness for C7: a non-binary payload whose text parses as JSON is
classified as the parsed structure. -/
theorem getBodyFromChunks_classification_witness :
    getBodyFromChunks (fun _ => false) (fun _ => "7")
      (fun s => if s = "7" then some 7 else none) [[55]] =
      BodyValue.json 7 :=
  (getBodyFromChunks_classification _ _ _ _).2.1 rfl 7 rfl

/-- C10: the recorder's scope string is always the scheme prefix chosen by
`_https_` concatenated with the normalized host; since the normalized host
always embeds a colon, the branch of `getScope` that would append a
separate non-default `options.port` never fires. -/
theorem getScope_scheme_host (o : Options) :
    getScope o = (if o.https then "https://" else "http://") ++
      fieldStr (normalizeRequestOptions o).host := by
  have hc : hasColon (fieldStr (normalizeRequestOptions o).host) = true := by
    rw [normalize_host]
    exact hasColon_append _ _
  simp [getScope, hc, normalize_https]

/-- C4: with no interceptors registered for the endpoint, a request after
`disableNetConnect()` throws `NetConnectNotAllowedError` carrying the
normalized host in its message, while the same request after
`enableNetConnect()` (match-everything pattern) is forwarded to the real
request function. -/
theorem netconnect_block_and_forward (reg : Registry) (proto : String)
    (o0 : Options)
    (hempty : interceptorsForNormed reg
      (normalizeForRequest { o0 with proto := some proto }) = []) :
    (moduleRequest ⟨reg, disableNetConnect, false⟩ proto o0 =
      .netConnectError
        (fieldStr (normalizeForRequest { o0 with proto := some proto }).host)) ∧
    (netConnectNotAllowedMessage
        (fieldStr (normalizeForRequest { o0 with proto := some proto }).host) =
      "Nock: Not allow net connect for \"" ++
        fieldStr (normalizeForRequest { o0 with proto := some proto }).host ++
        "\"") ∧
    (moduleRequest ⟨reg, enableNetConnectAll, false⟩ proto o0 =
      .realRequest) := by
  refine ⟨?_, rfl, ?_⟩
  · simp [moduleRequest, hempty, isEnabledForNetConnect, disableNetConnect]
  · simp [moduleRequest, hempty, isEnabledForNetConnect, enableNetConnectAll]

/-- Witness for C4: a request to `example.com` with an empty registry is
blocked with the normalized host `example.com:80` when net connect is
disabled, and forwarded when enabled. -/
theorem netconnect_block_and_forward_witness :
    moduleRequest ⟨[], disableNetConnect, false⟩ "http"
        { host := some "example.com" } =
      .netConnectError "example.com:80" ∧
    moduleRequest ⟨[], enableNetConnectAll, false⟩ "http"
        { host := some "example.com" } = .realRequest := by
  have h := netconnect_block_and_forward [] "http"
    { host := some "example.com" } rfl
  refine ⟨?_, h.2.2⟩
  rw [h.1]
  rfl

/-- C6: with interception on and a non-empty candidate list, a request
that no candidate matches independently of body while some candidate has
`allowUnmocked` set is handed to the real request function; in every
other case (some candidate matches, or no candidate allows unmocked) an
overridden request is constructed for simulation. -/
theorem allow_unmocked_passthrough (reg : Registry)
    (policy : NetConnectPolicy) (proto : String) (o0 o2 : Options)
    (l : List Interceptor)
    (ho : o2 = normalizeForRequest { o0 with proto := some proto })
    (hl : l = interceptorsForNormed reg o2)
    (hne : l ≠ []) :
    ((∀ i ∈ l, i.matchIndependentOfBody o2 = false) →
      (∃ i ∈ l, i.options.allowUnmocked = true) →
      moduleRequest ⟨reg, policy, false⟩ proto o0 = .realRequest) ∧
    ((∃ i ∈ l, i.matchIndependentOfBody o2 = true) →
      moduleRequest ⟨reg, policy, false⟩ proto o0 = .simulated) ∧
    ((∀ i ∈ l, i.options.allowUnmocked = false) →
      moduleRequest ⟨reg, policy, false⟩ proto o0 = .simulated) := by
  subst ho
  subst hl
  have hie : (interceptorsForNormed reg
      (normalizeForRequest { o0 with proto := some proto })).isEmpty =
        false := by
    rcases hr : interceptorsForNormed reg
        (normalizeForRequest { o0 with proto := some proto }) with _ | ⟨a, as⟩
    · exact absurd hr hne
    · rfl
  refine ⟨fun hm hu => ?_, fun hm => ?_, fun hu => ?_⟩
  · have h1 : (interceptorsForNormed reg
        (normalizeForRequest { o0 with proto := some proto })).any
          (fun i => i.matchIndependentOfBody
            (normalizeForRequest { o0 with proto := some proto })) = false :=
      List.any_eq_false.mpr (by intro i hi; simp [hm i hi])
    have h2 : (interceptorsForNormed reg
        (normalizeForRequest { o0 with proto := some proto })).any
          (fun i => i.options.allowUnmocked) = true := by
      obtain ⟨i, hi, hai⟩ := hu
      exact List.any_eq_true.mpr ⟨i, hi, hai⟩
    simp [moduleRequest, hie, h1, h2]
  · have h1 : (interceptorsForNormed reg
        (normalizeForRequest { o0 with proto := some proto })).any
          (fun i => i.matchIndependentOfBody
            (normalizeForRequest { o0 with proto := some proto })) = true := by
      obtain ⟨i, hi, hai⟩ := hm
      exact List.any_eq_true.mpr ⟨i, hi, hai⟩
    simp [moduleRequest, hie, h1]
  · have h2 : (interceptorsForNormed reg
        (normalizeForRequest { o0 with proto := some proto })).any
          (fun i => i.options.allowUnmocked) = false :=
      List.any_eq_false.mpr (by intro i hi; simp [hu i hi])
    simp [moduleRequest, hie, h2]

/-- Witness for C6: one registered interceptor with `allowUnmocked` whose
match predicate rejects the request sends the request to the real
request function. -/
theorem allow_unmocked_passthrough_witness :
    moduleRequest
      ⟨[("http://example.com:80",
          [{ id := 5, options := { allowUnmocked := true } }])],
        disableNetConnect, false⟩
      "http" { host := some "example.com" } = .realRequest := by
  have h := allow_unmocked_passthrough
    [("http://example.com:80",
      [{ id := 5, options := { allowUnmocked := true } }])]
    disableNetConnect "http" { host := some "example.com" }
    (normalizeForRequest
      { host := some "example.com", proto := some "http" })
    [{ id := 5, options := { allowUnmocked := true } }]
    rfl rfl (by simp)
  apply h.1
  · intro i hi
    rw [List.mem_singleton.mp hi]
  · exact ⟨{ id := 5, options := { allowUnmocked := true } },
      List.mem_singleton.mpr rfl, rfl⟩

/-- C1 counterexample: a port embedded in the `host` string with no
separate `port` field is not preserved — `{host:"example.com:8080"}`
normalizes to host `"example.com:80"` — and the same effective endpoint
given with the port in the `port` field normalizes to a different key. -/
theorem normalize_embedded_port_cex :
    (normalizeForRequest { host := some "example.com:8080" }).host ≠
        some "example.com:8080" ∧
    (normalizeForRequest { host := some "example.com:8080" }).host = some
        "example.com:80" ∧
    (normalizeForRequest { host := some "example.com:8080" }).host ≠
      (normalizeForRequest
        { hostname := some "example.com", port := some 8080 }).host := by
  refine ⟨by decide, by decide, by decide⟩

/-- C1 (amended): an explicit port is preserved exactly when it is given
in the separate `port` field: a nonzero port field survives
normalization, and any two requests with the same effective scheme, the
same `port` field and the same effective host name normalize to the same
canonical key `scheme://host`.  A port embedded only in the `host`
string with no separate `port` field is replaced by the scheme default
(`{host:"example.com:8080"}` yields host `"example.com:80"`), so the
embedded form does not share a canonical key with the `port`-field form;
`{host:"example.com", proto:"https"}` normalizes to port 443 and host
`"example.com:443"`. -/
theorem normalize_port_amended (o o1 o2 : Options) (p : Nat)
    (hp : o.port = some p) (hpne : p ≠ 0)
    (hP : jsOrStr o1.proto "http" = jsOrStr o2.proto "http")
    (hq : o1.port = o2.port)
    (hH : jsOrStr (normalizedHostname o1) "localhost" =
      jsOrStr (normalizedHostname o2) "localhost") :
    (normalizeForRequest o).port = some p ∧
    basePath (normalizeForRequest o1) = basePath (normalizeForRequest o2) ∧
    (normalizeForRequest
      { host := some "example.com", proto := some "https" }).port =
        some 443 ∧
    (normalizeForRequest
      { host := some "example.com", proto := some "https" }).host =
        some "example.com:443" ∧
    (normalizeForRequest { host := some "example.com:8080" }).host =
      some "example.com:80" ∧
    basePath (normalizeForRequest
        { host := some "example.com:8080", port := some 8080 }) =
      basePath (normalizeForRequest
        { hostname := some "example.com", port := some 8080 }) := by
  refine ⟨?_, ?_, by decide, by decide, by decide, by decide⟩
  · rw [normalizeForRequest_eq, normalize_port, hp,
      jsOrNat_some_of_ne _ _ hpne]
  · simp only [basePath, normalizeForRequest_eq, normalize_proto,
      normalize_host, fieldStr, Option.getD_some]
    rw [hP, hq, hH]

/-- Witness for C1 (amended): the port field 8080 survives
normalization, and a port embedded in the host string with no port field
is discarded, giving the same canonical key as the bare hostname. -/
theorem normalize_port_amended_witness :
    (normalizeForRequest { port := some 8080 }).port = some 8080 ∧
    basePath (normalizeForRequest { host := some "example.com:9090" }) =
      basePath (normalizeForRequest { hostname := some "example.com" }) := by
  have h := normalize_port_amended { port := some 8080 }
    { host := some "example.com:9090" } { hostname := some "example.com" }
    8080 rfl (by decide) rfl rfl (by decide)
  exact ⟨h.1, h.2.1⟩

/-- C8 counterexample: normalization is not idempotent on the full
options object — normalizing the empty options once leaves `hostname`
absent, and a second application fills it with `"localhost"`. -/
theorem normalize_idempotence_cex :
    normalizeRequestOptions (normalizeRequestOptions {}) ≠
      normalizeRequestOptions ({} : Options) := by decide

/-- C8 (amended): normalization never fails; `proto` defaults to
`"http"`, the port to 80/443 per scheme, and `"localhost"` is the default
name inside the composed `host` (the `hostname` field itself may stay
absent after one application).  It is idempotent on the `proto`, `port`
and `host` fields; it is fully idempotent on any input whose `hostname`
is a nonempty string, and from the second application onward. -/
theorem normalize_idempotence_amended (o : Options) :
    (normalizeRequestOptions (normalizeRequestOptions o)).proto =
      (normalizeRequestOptions o).proto ∧
    (normalizeRequestOptions (normalizeRequestOptions o)).port =
      (normalizeRequestOptions o).port ∧
    (normalizeRequestOptions (normalizeRequestOptions o)).host =
      (normalizeRequestOptions o).host ∧
    (∀ hn, o.hostname = some hn → hn ≠ "" →
      normalizeRequestOptions (normalizeRequestOptions o) =
        normalizeRequestOptions o) ∧
    normalizeRequestOptions (normalizeRequestOptions
        (normalizeRequestOptions o)) =
      normalizeRequestOptions (normalizeRequestOptions o) ∧
    (o.proto = none → (normalizeRequestOptions o).proto = some "http") ∧
    normalizeRequestOptions {} =
      { proto := some "http", port := some 80, hostname := none,
        host := some "localhost:80", https := false } ∧
    (normalizeRequestOptions { proto := some "https" }).port =
      some 443 := by
  refine ⟨normalize_norm_proto o, normalize_norm_port o,
    normalize_norm_host o,
    fun hn h1 h2 => normalize_idem_of_truthy o hn h1 h2,
    normalize_norm_fixed o, fun hp => ?_, by decide, by decide⟩
  rw [normalize_proto, hp]
  rfl

/-- Witness for C8 (amended): a nonempty `hostname` makes normalization
idempotent at that input. -/
theorem normalize_idempotence_amended_witness :
    normalizeRequestOptions (normalizeRequestOptions
        { hostname := some "example.com" }) =
      normalizeRequestOptions { hostname := some "example.com" } :=
  (normalize_idempotence_amended
    { hostname := some "example.com" }).2.2.2.1 "example.com" rfl
    (by decide)

/-- C2: an interceptor lookup prefers the scope-filter override — the
first registered expectation (groups in insertion order, interceptors in
list order within a group) whose `scopeFiltering` predicate accepts the
requested base path has its whole endpoint group returned, with that
expectation flagged as filtered; when no filter matches anywhere, the
list under the exact canonical key is returned, or `[]` when absent. -/
theorem interceptorsFor_scope_filtering (reg : Registry) (o : Options) :
    ((∀ p ∈ reg, ∀ i ∈ p.2,
        filterTest i (basePath (normalizeForRequest o)) = false) →
      interceptorsFor reg o =
        (assocLookup reg (basePath (normalizeForRequest o))).getD []) ∧
    (∀ pre k g1 i g2 post,
      reg = pre ++ (k, g1 ++ i :: g2) :: post →
      (∀ p ∈ pre, ∀ j ∈ p.2,
        filterTest j (basePath (normalizeForRequest o)) = false) →
      (∀ j ∈ g1, filterTest j (basePath (normalizeForRequest o)) = false) →
      filterTest i (basePath (normalizeForRequest o)) = true →
      interceptorsFor reg o = g1 ++ setFiltered i :: g2) := by
  constructor
  · intro hnone
    rw [interceptorsFor, interceptorsForNormed,
      findFilteredGroup_of_no_match reg _ hnone]
  · intro pre k g1 i g2 post hre hpre h1 hi
    subst hre
    rw [interceptorsFor, interceptorsForNormed,
      findFilteredGroup_found pre k g1 i g2 post _ hpre h1 hi]

/-- Witness for C2: a filter registered under another key matching the
requested base path redirects the lookup to its whole group, flagged. -/
theorem interceptorsFor_scope_filtering_witness :
    interceptorsFor
      [("k1", [{ id := 3 }]),
       ("k2", [{ id := 4, nockScopeKey := "k2",
                 nockScopeOptions :=
                   ⟨some (fun s => s = "http://example.com:80")⟩ }])]
      { host := some "example.com" } =
    [setFiltered
      { id := 4, nockScopeKey := "k2",
        nockScopeOptions :=
          ⟨some (fun s => s = "http://example.com:80")⟩ }] := by
  have h := (interceptorsFor_scope_filtering
    [("k1", [{ id := 3 }]),
     ("k2", [{ id := 4, nockScopeKey := "k2",
               nockScopeOptions :=
                 ⟨some (fun s => s = "http://example.com:80")⟩ }])]
    { host := some "example.com" }).2
    [("k1", [{ id := 3 }])] "k2" []
    { id := 4, nockScopeKey := "k2",
      nockScopeOptions := ⟨some (fun s => s = "http://example.com:80")⟩ }
    [] [] rfl
    (by
      intro p hp j hj
      rw [List.mem_singleton.mp hp] at hj
      rw [List.mem_singleton.mp hj]
      rfl)
    (by intro j hj; exact absurd hj (List.not_mem_nil j))
    (by decide)
  simpa using h

/-- C3: `remove` leaves the registry unchanged for a persistent scope (so
a persistent expectation survives any number of removals); for a
non-persistent interceptor with counter above one it only decrements the
counter, keeping the interceptor registered; at counter one it splices
the interceptor out of the list under its host key, after which lookups
of that key no longer return it. -/
theorem remove_lifecycle (reg : Registry) (i : Interceptor) :
    (i.nockScope.persist = true →
      remove reg i = reg ∧ ∀ n, (fun r => remove r i)^[n] reg = reg) ∧
    (i.nockScope.persist = false → 1 < i.counter →
      remove reg i = decrementById reg i.id ∧
      ∀ k g, (k, g) ∈ reg → i ∈ g →
        ∃ g2, (k, g2) ∈ remove reg i ∧
          { i with counter := i.counter - 1 } ∈ g2) ∧
    (i.nockScope.persist = false → i.counter = 1 →
      ∀ g, assocLookup reg (hostKeyOf i.key) = some g →
        assocLookup (remove reg i) (hostKeyOf i.key) =
          some (removeFirstById g i.id) ∧
        (g.countP (fun j => j.id = i.id) ≤ 1 →
          ∀ j ∈ removeFirstById g i.id, j.id ≠ i.id)) := by
  refine ⟨fun hp => ⟨?_, remove_iterate_of_persist reg i hp⟩,
    fun hp hc => ⟨?_, ?_⟩, fun hp hc g hg => ⟨?_, ?_⟩⟩
  · rw [remove, if_pos hp]
  · rw [remove, if_neg (by simp [hp]), if_pos hc]
  · intro k g hkg hig
    rw [remove, if_neg (by simp [hp]), if_pos hc]
    refine ⟨g.map (fun x =>
      if x.id = i.id then { x with counter := x.counter - 1 } else x),
      ?_, ?_⟩
    · exact List.mem_map_of_mem
        (fun kg => (kg.1, kg.2.map (fun x =>
          if x.id = i.id then { x with counter := x.counter - 1 } else x)))
        hkg
    · have := List.mem_map_of_mem (fun x =>
        if x.id = i.id then { x with counter := x.counter - 1 } else x) hig
      simpa using this
  · rw [remove, if_neg (by simp [hp]), if_neg (by omega)]
    simp only [hg]
    exact assocLookup_assocUpdate reg _ _ g hg
  · exact removeFirstById_of_unique g i.id

/-- Witness for C3: removing a persistent interceptor changes nothing;
removing a single-use one empties its endpoint list. -/
theorem remove_lifecycle_witness :
    remove [("http://a:80", [{ id := 1, nockScope := ⟨true⟩ }])]
        { id := 1, nockScope := ⟨true⟩ } =
      [("http://a:80", [{ id := 1, nockScope := ⟨true⟩ }])] ∧
    assocLookup
        (remove
          [("http://example.com:80",
            [{ id := 2, key := "GET http://example.com:80/" }])]
          { id := 2, key := "GET http://example.com:80/" })
        (hostKeyOf "GET http://example.com:80/") = some [] := by
  constructor
  · exact ((remove_lifecycle
      [("http://a:80", [{ id := 1, nockScope := ⟨true⟩ }])]
      { id := 1, nockScope := ⟨true⟩ }).1 rfl).1
  · have h := ((remove_lifecycle
      [("http://example.com:80",
        [{ id := 2, key := "GET http://example.com:80/" }])]
      { id := 2, key := "GET http://example.com:80/" }).2.2 rfl rfl
      [{ id := 2, key := "GET http://example.com:80/" }] rfl).1
    rw [h]
    rfl

end Nock
